import Mathlib

/-!
Verification of the geometry / path-planning core of
`auto_generated_scene_and_survey_V2.py` (floor-plan extraction, boundary
offsetting, scan-path planning, tour ordering).

Modelling conventions:
* Coordinates are modelled by `ℚ` (exact arithmetic idealising the source's
  floating point; none of the checked properties is about rounding).
* `np.arange(start, stop, step)` (with positive step) is modelled in closed
  form: `⌈(stop - start)/step⌉` samples `start + i·step`.
* The external geometry library (shapely) is abstracted, following the spec's
  own "narrow geometry-provider interface" design note, as two function
  parameters: a strict point-in-polygon test `contains` and an inward offset
  `buffer` returning the list of resulting polygon pieces (`[]` encodes an
  empty or invalid offset result).  Concrete executable instances
  (`convexContains`, `rectInnerOffset`) are provided for the spec's concrete
  scenarios, which only involve convex (indeed axis-aligned) footprints.
* `random.sample` is abstracted as a `sampler` parameter (the spec's design
  notes require an explicit randomness source); its contract — returning
  exactly `k` of the given points — is a hypothesis where needed, and the
  executable instance `takeSampler` (take the first `k`) is used in witnesses.
* Polygons are vertex lists without the repeated closing point, exactly the
  `boundary_points[:-1]` that the source hands to `shapely.Polygon`.
-/

attribute [local semireducible] Rat.add Rat.mul Rat.inv Rat.sub

set_option maxRecDepth 100000

namespace HeliosScan

/-- A 2-D scan point, `(x, y)`. -/
abbrev Point : Type := ℚ × ℚ

/-- A 3-D mesh vertex, `(x, y, z)`. -/
abbrev Point3 : Type := ℚ × ℚ × ℚ

/-- A polygon given by its vertex ring without the repeated closing point. -/
abbrev Polygon : Type := List Point

/-- Squared Euclidean distance.  The source compares `np.linalg.norm` /
`np.sqrt` values, and exact square-root comparison is order-equivalent to
squared comparison (ties included), so the greedy selection below uses the
squared form. -/
def sqDist (p q : Point) : ℚ :=
  (p.1 - q.1) ^ 2 + (p.2 - q.2) ^ 2

/-- `np.arange start stop step` for positive `step`, in exact arithmetic:
`⌈(stop - start)/step⌉` equally spaced samples starting at `start`. -/
def arange (start stop step : ℚ) : List ℚ :=
  (List.range (⌈(stop - start) / step⌉.toNat)).map (fun (i : ℕ) => start + (i : ℚ) * step)

/-- Cross product `(b - a) × (p - a)`; sign tells on which side of the
directed line `a → b` the point `p` lies. -/
def crossAt (a b p : Point) : ℚ :=
  (b.1 - a.1) * (p.2 - a.2) - (b.2 - a.2) * (p.1 - a.1)

/-- The directed edge list of a polygon (each vertex to its cyclic successor). -/
def edgesOf (poly : Polygon) : List (Point × Point) :=
  poly.zip (poly.rotate 1)

/-- Modelled from the spec: shapely's strict point-in-polygon test
`polygon.contains(Point(x, y))` (an external geometry-library capability,
abstracted per the spec's geometry-provider design note), made executable for
the convex polygons the spec's scenarios use: a point is strictly inside a
convex polygon iff it is strictly on the same side of every directed edge. -/
def convexContains (poly : Polygon) (p : Point) : Bool :=
  ((edgesOf poly).all fun e => decide (0 < crossAt e.1 e.2 p)) ||
  ((edgesOf poly).all fun e => decide (crossAt e.1 e.2 p < 0))

/-- Least x-coordinate of a polygon's vertices (shapely `bounds`). -/
def minX : Polygon → ℚ
  | [] => 0
  | p :: ps => ps.foldl (fun m q => min m q.1) p.1

/-- Least y-coordinate of a polygon's vertices. -/
def minY : Polygon → ℚ
  | [] => 0
  | p :: ps => ps.foldl (fun m q => min m q.2) p.2

/-- Greatest x-coordinate of a polygon's vertices. -/
def maxX : Polygon → ℚ
  | [] => 0
  | p :: ps => ps.foldl (fun m q => max m q.1) p.1

/-- Greatest y-coordinate of a polygon's vertices. -/
def maxY : Polygon → ℚ
  | [] => 0
  | p :: ps => ps.foldl (fun m q => max m q.2) p.2

/-- Modelled from the spec: shapely's inward offset `polygon.buffer(-d)` (an
external geometry-library capability), specialised to the axis-aligned
rectangles that the spec's concrete scenarios use.  The inward offset of the
rectangle `[minx, maxx] × [miny, maxy]` by `d` is
`[minx + d, maxx - d] × [miny + d, maxy - d]`, and it is empty exactly when
the clearance meets or exceeds a half-width — for the 10 × 10 square footprint
this is the inscribed-radius condition the spec describes. -/
def rectInnerOffset (poly : Polygon) (d : ℚ) : List Polygon :=
  let a := minX poly + d
  let b := maxX poly - d
  let c := minY poly + d
  let e := maxY poly - d
  if a < b ∧ c < e then [[(a, c), (b, c), (b, e), (a, e)]] else []

/-- Modelled from the spec: an instance of the abstract subsampling source
(`random.sample(points, k)` returns exactly `k` of the points; which ones is
up to the randomness source).  This deterministic instance takes the first
`k`, and is used to instantiate witnesses. -/
def takeSampler (l : List Point) (k : ℕ) : List Point :=
  l.take k

/-- Twice the signed (shoelace) area of a polygon. -/
def shoelace2 (poly : Polygon) : ℚ :=
  ((poly.zip (poly.rotate 1)).map (fun e => e.1.1 * e.2.2 - e.2.1 * e.1.2)).sum

/-- Shapely `polygon.area`: absolute shoelace area. -/
def shArea (poly : Polygon) : ℚ :=
  |shoelace2 poly| / 2

/-- Shapely `polygon.centroid`: the area-weighted centroid of a simple
polygon, by the standard shoelace centroid formula. -/
def shCentroid (poly : Polygon) : Point :=
  let a2 := shoelace2 poly
  (((poly.zip (poly.rotate 1)).map
      (fun e => (e.1.1 + e.2.1) * (e.1.1 * e.2.2 - e.2.1 * e.1.2))).sum / (3 * a2),
   ((poly.zip (poly.rotate 1)).map
      (fun e => (e.1.2 + e.2.2) * (e.1.1 * e.2.2 - e.2.1 * e.1.2))).sum / (3 * a2))

/-- The source's largest-piece selection
`areas.index(max(areas))` over the pieces of a multi-piece offset result:
fold keeping the first piece attaining the maximal area. -/
def pickLargest : Polygon → List Polygon → Polygon
  | p, [] => p
  | p, q :: qs => if shArea p < shArea q then pickLargest q qs else pickLargest p qs

/-- The scan region both planners compute from the input boundary
(`boundary_points`) and the clearance (`boundary_distance`): for positive
clearance the inward offset is taken (`none` = empty/invalid result, the
degenerate case), with the largest-area piece selected from a multi-piece
result; for clearance `0` the polygon itself (the ring without its closing
point, exactly `boundary_points[:-1]`) is used unchanged. -/
def scanRegion (buffer : Polygon → ℚ → List Polygon) (boundary : List Point)
    (bd : ℚ) : Option Polygon :=
  let coords := boundary.dropLast
  if 0 < bd then
    match buffer coords bd with
    | [] => none
    | p :: ps => some (pickLargest p ps)
  else some coords

/-- One horizontal scan line of `_generate_horizontal_scan` (line index `i` at
height `y`): probe x at sub-step `step/20` across `[minx, maxx]`, keep the
in-region probes, re-sample the span `[min, max]` of the kept probes at the
full step, reverse odd-indexed lines (serpentine), and keep only in-region
re-samples. -/
def hLine (contains : Polygon → Point → Bool) (poly : Polygon)
    (minx maxx s y : ℚ) (i : ℕ) : List Point :=
  match (arange minx (maxx + s / 20) (s / 20)).filter
      (fun x => contains poly (x, y)) with
  | [] => []
  | x0 :: rest =>
    let xstart := rest.foldl min x0
    let xend := rest.foldl max x0
    let xs := arange xstart (xend + s / 2) s
    let xs2 := if i % 2 = 1 then xs.reverse else xs
    (xs2.filter (fun x => contains poly (x, y))).map (fun x => (x, y))

/-- `_generate_horizontal_scan`: serpentine sweep over the lines
`y = miny + step/2, miny + 3·step/2, … < maxy`. -/
def generate_horizontal_scan (contains : Polygon → Point → Bool) (poly : Polygon)
    (minx maxx miny maxy s : ℚ) : List Point :=
  ((arange (miny + s / 2) maxy s).enum).flatMap
    (fun iy => hLine contains poly minx maxx s iy.2 iy.1)

/-- One vertical scan column of `_generate_vertical_scan` (column index `i`
at abscissa `x`), symmetric to `hLine`. -/
def vLine (contains : Polygon → Point → Bool) (poly : Polygon)
    (miny maxy s x : ℚ) (i : ℕ) : List Point :=
  match (arange miny (maxy + s / 20) (s / 20)).filter
      (fun y => contains poly (x, y)) with
  | [] => []
  | y0 :: rest =>
    let ystart := rest.foldl min y0
    let yend := rest.foldl max y0
    let ys := arange ystart (yend + s / 2) s
    let ys2 := if i % 2 = 1 then ys.reverse else ys
    (ys2.filter (fun y => contains poly (x, y))).map (fun y => (x, y))

/-- `_generate_vertical_scan`: serpentine sweep over the columns
`x = minx + step/2, … < maxx`. -/
def generate_vertical_scan (contains : Polygon → Point → Bool) (poly : Polygon)
    (minx maxx miny maxy s : ℚ) : List Point :=
  ((arange (minx + s / 2) maxx s).enum).flatMap
    (fun ix => vLine contains poly miny maxy s ix.2 ix.1)

/-- The raw uniform-grid candidates of `_generate_grid_points` (x-major
iteration, in-region points only). -/
def gridCandidates (contains : Polygon → Point → Bool) (poly : Polygon)
    (minx maxx miny maxy s : ℚ) : List Point :=
  (arange (minx + s / 2) maxx s).flatMap (fun x =>
    ((arange (miny + s / 2) maxy s).filter (fun y => contains poly (x, y))).map
      (fun y => (x, y)))

/-- First index of a minimal squared distance from `c` among the remaining
points (Python's `distances.index(min(distances))` and
`min(range(len), key=…)` both pick the first minimum). -/
def argminAux (c : Point) : List Point → ℕ → ℚ → ℕ → ℕ
  | [], _, _, best => best
  | p :: ps, i, bestd, best =>
    let d := sqDist c p
    if d < bestd then argminAux c ps (i + 1) d i
    else argminAux c ps (i + 1) bestd best

/-- The greedy nearest-neighbour loop: repeatedly remove (by position) the
unvisited point nearest to the current one.  The fuel argument is always
called with the length of the unvisited list, making the recursion
structural; it never runs out because each step removes exactly one point. -/
def nnLoop (c : Point) : ℕ → List Point → List Point
  | _, [] => []
  | 0, _ :: _ => []
  | fuel + 1, p :: ps =>
    let i := argminAux c ps 1 (sqDist c p) 0
    let nxt := (p :: ps).getD i p
    nxt :: nnLoop nxt fuel ((p :: ps).eraseIdx i)

/-- `nearest_neighbor_path` (and the identical inline loop of
`_generate_grid_points`): start from the first point, then greedily append
the nearest unvisited point. -/
def nearest_neighbor_path (points : List Point) : List Point :=
  match points with
  | [] => []
  | p :: ps => p :: nnLoop p ps.length ps

/-- `_generate_grid_points`: uniform grid candidates connected by the greedy
nearest-neighbour tour (empty input gives an empty path). -/
def generate_grid_points (contains : Polygon → Point → Bool) (poly : Polygon)
    (minx maxx miny maxy s : ℚ) : List Point :=
  nearest_neighbor_path (gridCandidates contains poly minx maxx miny maxy s)

/-- One uniform-grid sampling pass of `_generate_traditional_scan_path` at
step `s`: `np.arange(min + s/2, max - s/2, s)` in both axes, in-region points
only (x-major). -/
def tGridSample (contains : Polygon → Point → Bool) (poly : Polygon)
    (s : ℚ) : List Point :=
  (arange (minX poly + s / 2) (maxX poly - s / 2) s).flatMap (fun x =>
    ((arange (minY poly + s / 2) (maxY poly - s / 2) s).filter
        (fun y => contains poly (x, y))).map (fun y => (x, y)))

/-- The adaptive-step loop of `_generate_traditional_scan_path`
(`for attempt in range(10)`): sample at the current step; stop when the count
is within `maxP`, otherwise multiply the step by 1.2 and retry.  Called with
fuel 9 (10 attempts); the value is the last sampling computed. -/
def adaptLoop (contains : Polygon → Point → Bool) (poly : Polygon)
    (maxP : ℕ) (s : ℚ) : ℕ → List Point
  | 0 => tGridSample contains poly s
  | n + 1 =>
    let pts := tGridSample contains poly s
    if pts.length ≤ maxP then pts
    else adaptLoop contains poly maxP (s * (6 / 5)) n

/-- The number of step increases the adaptive loop performs before stopping
(0 when the first sampling is already within `maxP`; the loop body runs
`adaptSteps + 1` times). -/
def adaptSteps (contains : Polygon → Point → Bool) (poly : Polygon)
    (maxP : ℕ) (s : ℚ) : ℕ → ℕ
  | 0 => 0
  | n + 1 =>
    if (tGridSample contains poly s).length ≤ maxP then 0
    else adaptSteps contains poly maxP (s * (6 / 5)) n + 1

/-- The post-offset core of `_generate_traditional_scan_path`: adaptive-step
sampling, centroid fallback when the final sampling is empty, subsampling
when the count still exceeds `maxP`, then greedy nearest-neighbour ordering. -/
def tradCore (contains : Polygon → Point → Bool)
    (sampler : List Point → ℕ → List Point) (poly : Polygon)
    (s : ℚ) (maxP : ℕ) : List Point :=
  let pts := adaptLoop contains poly maxP s 9
  let pts2 := if pts.isEmpty then [shCentroid poly] else pts
  let pts3 := if maxP < pts2.length then sampler pts2 maxP else pts2
  nearest_neighbor_path pts3

/-- `_generate_traditional_scan_path`: offset the boundary (degenerate offset
falls back to the original polygon's centroid), then run the traditional
core. -/
def generate_traditional_scan_path (contains : Polygon → Point → Bool)
    (buffer : Polygon → ℚ → List Polygon)
    (sampler : List Point → ℕ → List Point)
    (boundary : List Point) (s : ℚ) (maxP : ℕ) (bd : ℚ) : List Point :=
  match scanRegion buffer boundary bd with
  | none => [shCentroid boundary.dropLast]
  | some poly => tradCore contains sampler poly s maxP

/-- The four grid-mode sweep directions. -/
inductive Dir
  | horizontal
  | vertical
  | both
  | grid

/-- The direction dispatch of `_generate_grid_scan_path` over the scan
region's bounds (`both` concatenates the full horizontal pass with the full
vertical pass). -/
def gridDispatch (contains : Polygon → Point → Bool) (poly : Polygon)
    (s : ℚ) (dir : Dir) : List Point :=
  let minx := minX poly
  let maxx := maxX poly
  let miny := minY poly
  let maxy := maxY poly
  match dir with
  | .horizontal => generate_horizontal_scan contains poly minx maxx miny maxy s
  | .vertical => generate_vertical_scan contains poly minx maxx miny maxy s
  | .both =>
      generate_horizontal_scan contains poly minx maxx miny maxy s ++
      generate_vertical_scan contains poly minx maxx miny maxy s
  | .grid => generate_grid_points contains poly minx maxx miny maxy s

/-- `_generate_grid_scan_path`: offset the boundary (degenerate offset falls
back to the original polygon's centroid), dispatch on the direction, and fall
back to the scan region's centroid when the chosen strategy yields nothing. -/
def generate_grid_scan_path (contains : Polygon → Point → Bool)
    (buffer : Polygon → ℚ → List Polygon)
    (boundary : List Point) (s bd : ℚ) (dir : Dir) : List Point :=
  match scanRegion buffer boundary bd with
  | none => [shCentroid boundary.dropLast]
  | some poly =>
    let path := gridDispatch contains poly s dir
    if path.isEmpty then [shCentroid poly] else path

/-- The two planner modes. -/
inductive Mode
  | grid
  | traditional

/-- The `ScanConfig` of the spec (the `z_height` stand height plays no part in
the planar path computation and is omitted). -/
structure ScanConfig where
  step : ℚ
  boundaryClearance : ℚ
  mode : Mode
  direction : Dir
  maxPoints : ℕ

/-- `optimize_scan_path`: mode dispatch between the two planners. -/
def optimize_scan_path (contains : Polygon → Point → Bool)
    (buffer : Polygon → ℚ → List Polygon)
    (sampler : List Point → ℕ → List Point)
    (boundary : List Point) (cfg : ScanConfig) : List Point :=
  match cfg.mode with
  | .grid =>
      generate_grid_scan_path contains buffer boundary cfg.step
        cfg.boundaryClearance cfg.direction
  | .traditional =>
      generate_traditional_scan_path contains buffer sampler boundary cfg.step
        cfg.maxPoints cfg.boundaryClearance

/-- `np.percentile(zs, 5)` with the default linear interpolation: on the
sorted values, position `h = (n-1)·5/100`, value
`v⌊h⌋ + (h - ⌊h⌋)·(v⌊h⌋₊₁ - v⌊h⌋)`. -/
def percentile5 (zs : List ℚ) : ℚ :=
  let sorted := zs.insertionSort (fun a b => a ≤ b)
  let n := sorted.length
  if n = 0 then 0
  else
    let hq : ℚ := ((n : ℚ) - 1) * (5 / 100)
    let i : ℕ := (⌊hq⌋).toNat
    let g : ℚ := hq - (i : ℚ)
    if i + 1 < n then
      sorted.getD i 0 + g * (sorted.getD (i + 1) 0 - sorted.getD i 0)
    else sorted.getD i 0

/-- Mean z-height of a face's vertices (`np.mean` of the indexed vertices). -/
def faceMeanZ (vertices : List Point3) (face : List ℕ) : ℚ :=
  let zs := face.map (fun idx => (vertices.getD idx (0, 0, 0)).2.2)
  zs.sum / (zs.length : ℚ)

/-- Ground-vertex selection of `extract_floor_plan`: all vertices of the
faces whose mean height is within `thr` (strictly) of the 5th percentile of
all vertex heights, falling back to the whole vertex set when no face
qualifies. -/
def groundVertices (vertices : List Point3) (faces : List (List ℕ))
    (thr : ℚ) : List Point3 :=
  let gh := percentile5 (vertices.map (fun v => v.2.2))
  let gv := (faces.filter (fun f => decide (|faceMeanZ vertices f - gh| < thr))).flatMap
      (fun f => f.map (fun idx => vertices.getD idx (0, 0, 0)))
  if gv.isEmpty then vertices else gv

/-- `extract_floor_plan`.  The convex-hull capability (scipy's `ConvexHull`,
an external library) is abstracted as a `hull` parameter returning `none`
when unavailable or when it raises on degenerate input; it is consulted only
when at least 3 projected points exist, and a successful hull's ordered
vertices are closed by repeating the first.  In every other case the
axis-aligned bounding rectangle of the projected ground vertices is returned,
closed, corners in the source's fixed rotational order. -/
def extract_floor_plan (hull : List Point → Option (List Point))
    (vertices : List Point3) (faces : List (List ℕ)) (thr : ℚ) : List Point :=
  let gv := groundVertices vertices faces thr
  let xy := gv.map (fun v => (v.1, v.2.1))
  match (if 3 ≤ xy.length then hull xy else none) with
  | some (h :: t) => (h :: t) ++ [h]
  | _ =>
    match xy with
    | [] => []
    | c :: rest =>
      let mnx := rest.foldl (fun m q => min m q.1) c.1
      let mny := rest.foldl (fun m q => min m q.2) c.2
      let mxx := rest.foldl (fun m q => max m q.1) c.1
      let mxy := rest.foldl (fun m q => max m q.2) c.2
      [(mnx, mny), (mxx, mny), (mxx, mxy), (mnx, mxy), (mnx, mny)]

/-- Euclidean length of one path segment (exact counterpart of the source's
floating `sqrt`). -/
noncomputable def segLen (p q : Point) : ℝ :=
  Real.sqrt ((sqDist p q : ℚ) : ℝ)

/-- Total Euclidean length of a polyline through the given points. -/
noncomputable def pathLen : List Point → ℝ
  | p :: q :: rest => segLen p q + pathLen (q :: rest)
  | _ => 0

/-- The square footprint of the spec's scenarios, as handed to the planner
(closed ring). -/
def sqBoundary : List Point :=
  [(0, 0), (10, 0), (10, 10), (0, 10), (0, 0)]

/-- The same square without the closing point (`boundary_points[:-1]`). -/
def sqOpen : Polygon :=
  [(0, 0), (10, 0), (10, 10), (0, 10)]

/-- The offset square produced by clearance 1. -/
def sqInner : Polygon :=
  [(1, 1), (9, 1), (9, 9), (1, 9)]

/-! ### Helper lemmas -/

theorem sqDist_comm (p q : Point) : sqDist p q = sqDist q p := by
  simp only [sqDist]; ring

theorem segLen_comm (p q : Point) : segLen p q = segLen q p := by
  simp [segLen, sqDist_comm]

theorem segLen_le_segLen (p q r : Point) (h : sqDist p q ≤ sqDist p r) :
    segLen p q ≤ segLen p r := by
  exact Real.sqrt_le_sqrt (by exact_mod_cast h)

theorem getD_cons_eraseIdx_perm (l : List Point) (i : ℕ) (d : Point)
    (h : i < l.length) : (l.getD i d :: l.eraseIdx i).Perm l := by
  induction l generalizing i with
  | nil => simp at h
  | cons a t ih =>
    cases i with
    | zero => simp
    | succ j =>
      have hj : j < t.length := by simpa using h
      have step : (t.getD j d :: a :: t.eraseIdx j).Perm (a :: t) :=
        (List.Perm.swap a (t.getD j d) (t.eraseIdx j)).trans ((ih j hj).cons a)
      simpa using step

theorem argminAux_lt (c : Point) :
    ∀ (l : List Point) (i : ℕ) (bd : ℚ) (best : ℕ),
      best < i → argminAux c l i bd best < i + l.length := by
  intro l
  induction l with
  | nil => intro i bd best h; simpa [argminAux] using h
  | cons p ps ih =>
    intro i bd best h
    simp only [argminAux]
    by_cases hd : sqDist c p < bd
    · simp only [hd, if_true]
      have := ih (i + 1) (sqDist c p) i (Nat.lt_succ_self i)
      simp only [List.length_cons]
      omega
    · simp only [hd, if_false]
      have := ih (i + 1) bd best (h.trans (Nat.lt_succ_self i))
      simp only [List.length_cons]
      omega

theorem nnLoop_perm :
    ∀ (n : ℕ) (c : Point) (l : List Point), l.length ≤ n →
      (nnLoop c n l).Perm l := by
  intro n
  induction n with
  | zero =>
    intro c l h
    have : l = [] := List.length_eq_zero.mp (Nat.le_zero.mp h)
    subst this; simp [nnLoop]
  | succ m ih =>
    intro c l h
    match l with
    | [] => simp [nnLoop]
    | p :: ps =>
      have hi : argminAux c ps 1 (sqDist c p) 0 < (p :: ps).length := by
        have := argminAux_lt c ps 1 (sqDist c p) 0 Nat.one_pos
        simp only [List.length_cons]
        omega
      have hlen : ((p :: ps).eraseIdx (argminAux c ps 1 (sqDist c p) 0)).length ≤ m := by
        have hi' : argminAux c ps 1 (sqDist c p) 0 < ps.length + 1 := by
          simpa using hi
        have hps : (p :: ps).length ≤ m + 1 := h
        simp only [List.length_cons] at hps
        simp only [List.length_eraseIdx, List.length_cons, hi', if_true]
        omega
      exact ((ih _ _ hlen).cons _).trans (getD_cons_eraseIdx_perm (p :: ps) _ p hi)

/-- The greedy nearest-neighbour ordering permutes its input (helper shared
by several claims). -/
theorem nnPath_perm (pts : List Point) :
    (nearest_neighbor_path pts).Perm pts := by
  match pts with
  | [] => simp [nearest_neighbor_path]
  | p :: ps =>
    simpa [nearest_neighbor_path] using (nnLoop_perm ps.length p ps (Nat.le_refl _)).cons p

theorem nnPath_length (pts : List Point) :
    (nearest_neighbor_path pts).length = pts.length :=
  (nnPath_perm pts).length_eq

theorem nnPath_mem {pts : List Point} {p : Point}
    (h : p ∈ nearest_neighbor_path pts) : p ∈ pts :=
  (nnPath_perm pts).mem_iff.mp h

theorem arange_mem_bound {a b s x : ℚ} (hs : 0 < s) (hx : x ∈ arange a b s) :
    Int.fract ((x - a) / s) = 0 ∧ a ≤ x ∧ x < b := by
  simp only [arange] at hx
  obtain ⟨i, hi0, hxe⟩ := List.mem_map.mp hx
  have hi : i < (⌈(b - a) / s⌉).toNat := List.mem_range.mp hi0
  subst hxe
  have hsne : s ≠ 0 := ne_of_gt hs
  refine ⟨?_, ?_, ?_⟩
  · have heq : (a + (i : ℚ) * s - a) / s = ((i : ℕ) : ℚ) := by
      field_simp
    rw [heq]
    exact_mod_cast Int.fract_natCast (α := ℚ) i
  · have hnn : 0 ≤ (i : ℚ) * s := mul_nonneg (by positivity) hs.le
    linarith
  · have hiz : ((i : ℤ)) < ⌈(b - a) / s⌉ := Int.lt_toNat.mp hi
    have h1 : ((i : ℚ)) ≤ (⌈(b - a) / s⌉ : ℚ) - 1 := by
      have h0 : ((i : ℤ)) ≤ ⌈(b - a) / s⌉ - 1 := by omega
      exact_mod_cast h0
    have h2 : (⌈(b - a) / s⌉ : ℚ) - 1 < (b - a) / s := by
      have := Int.ceil_lt_add_one ((b - a) / s)
      linarith
    have h3 : ((i : ℚ)) < (b - a) / s := lt_of_le_of_lt h1 h2
    have h4 : (i : ℚ) * s < b - a := by
      calc (i : ℚ) * s < ((b - a) / s) * s := mul_lt_mul_of_pos_right h3 hs
        _ = b - a := div_mul_cancel₀ _ hsne
    linarith

theorem mem_enumFrom_snd {α : Type} :
    ∀ (l : List α) (n : ℕ) (q : ℕ × α), q ∈ l.enumFrom n → q.2 ∈ l := by
  intro l
  induction l with
  | nil => intro n q h; simp [List.enumFrom] at h
  | cons a t ih =>
    intro n q h
    simp only [List.enumFrom, List.mem_cons] at h
    rcases h with rfl | h
    · simp
    · exact List.mem_cons_of_mem a (ih (n + 1) q h)

theorem hLine_mem {contains : Polygon → Point → Bool} {poly : Polygon}
    {minx maxx s y : ℚ} {i : ℕ} {p : Point}
    (h : p ∈ hLine contains poly minx maxx s y i) :
    p.2 = y ∧ contains poly p = true := by
  simp only [hLine] at h
  rcases hm : (arange minx (maxx + s / 20) (s / 20)).filter
      (fun x => contains poly (x, y)) with _ | ⟨x0, rest⟩
  · rw [hm] at h; simp at h
  · rw [hm] at h
    simp only [List.mem_map, List.mem_filter] at h
    obtain ⟨x, ⟨_, hcx⟩, rfl⟩ := h
    exact ⟨rfl, hcx⟩

theorem vLine_mem {contains : Polygon → Point → Bool} {poly : Polygon}
    {miny maxy s x : ℚ} {i : ℕ} {p : Point}
    (h : p ∈ vLine contains poly miny maxy s x i) :
    p.1 = x ∧ contains poly p = true := by
  simp only [vLine] at h
  rcases hm : (arange miny (maxy + s / 20) (s / 20)).filter
      (fun y => contains poly (x, y)) with _ | ⟨y0, rest⟩
  · rw [hm] at h; simp at h
  · rw [hm] at h
    simp only [List.mem_map, List.mem_filter] at h
    obtain ⟨y, ⟨_, hcy⟩, rfl⟩ := h
    exact ⟨rfl, hcy⟩

theorem horizontal_scan_mem {contains : Polygon → Point → Bool} {poly : Polygon}
    {minx maxx miny maxy s : ℚ} {p : Point}
    (h : p ∈ generate_horizontal_scan contains poly minx maxx miny maxy s) :
    p.2 ∈ arange (miny + s / 2) maxy s ∧ contains poly p = true := by
  simp only [generate_horizontal_scan, List.mem_flatMap] at h
  obtain ⟨iy, hiy, hp⟩ := h
  obtain ⟨h2, hc⟩ := hLine_mem hp
  refine ⟨?_, hc⟩
  rw [h2]
  exact mem_enumFrom_snd _ 0 iy hiy

theorem vertical_scan_mem {contains : Polygon → Point → Bool} {poly : Polygon}
    {minx maxx miny maxy s : ℚ} {p : Point}
    (h : p ∈ generate_vertical_scan contains poly minx maxx miny maxy s) :
    p.1 ∈ arange (minx + s / 2) maxx s ∧ contains poly p = true := by
  simp only [generate_vertical_scan, List.mem_flatMap] at h
  obtain ⟨ix, hix, hp⟩ := h
  obtain ⟨h1, hc⟩ := vLine_mem hp
  refine ⟨?_, hc⟩
  rw [h1]
  exact mem_enumFrom_snd _ 0 ix hix

theorem gridCandidates_mem {contains : Polygon → Point → Bool} {poly : Polygon}
    {minx maxx miny maxy s : ℚ} {p : Point}
    (h : p ∈ gridCandidates contains poly minx maxx miny maxy s) :
    contains poly p = true := by
  simp only [gridCandidates, List.mem_flatMap, List.mem_map, List.mem_filter] at h
  obtain ⟨x, _, y, ⟨_, hc⟩, rfl⟩ := h
  exact hc

theorem pickLargest_mem : ∀ (qs : List Polygon) (p : Polygon),
    pickLargest p qs ∈ p :: qs := by
  intro qs
  induction qs with
  | nil => intro p; simp [pickLargest]
  | cons q qs ih =>
    intro p
    simp only [pickLargest]
    by_cases hpq : shArea p < shArea q
    · simp only [hpq, if_true]
      exact List.mem_cons_of_mem p (ih q)
    · simp only [hpq, if_false]
      have h := ih p
      rw [List.mem_cons] at h
      rcases h with h | h
      · rw [h]
        exact List.mem_cons_self _ _
      · exact List.mem_cons_of_mem p (List.mem_cons_of_mem q h)

theorem pickLargest_le : ∀ (qs : List Polygon) (p r : Polygon),
    r ∈ p :: qs → shArea r ≤ shArea (pickLargest p qs) := by
  intro qs
  induction qs with
  | nil =>
    intro p r hr
    simp only [List.mem_cons, List.not_mem_nil, or_false] at hr
    subst hr; simp [pickLargest]
  | cons q qs ih =>
    intro p r hr
    rw [List.mem_cons] at hr
    simp only [pickLargest]
    by_cases hpq : shArea p < shArea q
    · simp only [hpq, if_true]
      rcases hr with heq | hr'
      · subst heq
        exact hpq.le.trans (ih q q (List.mem_cons_self _ _))
      · exact ih q r hr'
    · simp only [hpq, if_false]
      rcases hr with heq | hr'
      · subst heq
        exact ih r r (List.mem_cons_self _ _)
      · rw [List.mem_cons] at hr'
        rcases hr' with heq2 | hr''
        · subst heq2
          exact (not_lt.mp hpq).trans (ih p p (List.mem_cons_self _ _))
        · exact ih p r (List.mem_cons_of_mem p hr'')

theorem adaptLoop_eq (contains : Polygon → Point → Bool) (poly : Polygon)
    (maxP : ℕ) :
    ∀ (n : ℕ) (s : ℚ), adaptLoop contains poly maxP s n =
      tGridSample contains poly
        (s * (6 / 5) ^ adaptSteps contains poly maxP s n) := by
  intro n
  induction n with
  | zero => intro s; simp [adaptLoop, adaptSteps]
  | succ m ih =>
    intro s
    simp only [adaptLoop, adaptSteps]
    by_cases h : (tGridSample contains poly s).length ≤ maxP
    · simp [h]
    · simp only [h, if_false]
      rw [ih (s * (6 / 5))]
      congr 1
      ring

theorem adaptSteps_le (contains : Polygon → Point → Bool) (poly : Polygon)
    (maxP : ℕ) :
    ∀ (n : ℕ) (s : ℚ), adaptSteps contains poly maxP s n ≤ n := by
  intro n
  induction n with
  | zero => intro s; simp [adaptSteps]
  | succ m ih =>
    intro s
    simp only [adaptSteps]
    by_cases h : (tGridSample contains poly s).length ≤ maxP
    · simp [h]
    · simp only [h, if_false]
      exact Nat.succ_le_succ (ih (s * (6 / 5)))

theorem adaptSteps_exceeds (contains : Polygon → Point → Bool) (poly : Polygon)
    (maxP : ℕ) :
    ∀ (n : ℕ) (s : ℚ) (j : ℕ), j < adaptSteps contains poly maxP s n →
      maxP < (tGridSample contains poly (s * (6 / 5) ^ j)).length := by
  intro n
  induction n with
  | zero => intro s j hj; simp [adaptSteps] at hj
  | succ m ih =>
    intro s j hj
    simp only [adaptSteps] at hj
    by_cases h : (tGridSample contains poly s).length ≤ maxP
    · simp [h] at hj
    · simp only [h, if_false] at hj
      cases j with
      | zero => simpa using not_le.mp h
      | succ j' =>
        have := ih (s * (6 / 5)) j' (Nat.lt_of_succ_lt_succ hj)
        have harg : s * (6 / 5) * (6 / 5) ^ j' = s * (6 / 5) ^ (j' + 1) := by ring
        rwa [harg] at this

theorem tradCore_eq (contains : Polygon → Point → Bool)
    (sampler : List Point → ℕ → List Point) (poly : Polygon) (s : ℚ)
    (maxP : ℕ) (hmax : 1 ≤ maxP) :
    tradCore contains sampler poly s maxP =
      (let pts := tGridSample contains poly
          (s * (6 / 5) ^ adaptSteps contains poly maxP s 9)
       if pts.isEmpty then [shCentroid poly]
       else nearest_neighbor_path
         (if maxP < pts.length then sampler pts maxP else pts)) := by
  simp only [tradCore, adaptLoop_eq]
  set pts := tGridSample contains poly
      (s * (6 / 5) ^ adaptSteps contains poly maxP s 9) with hpts
  by_cases he : pts.isEmpty
  · have h0 : maxP ≠ 0 := by omega
    simp [he, h0, nearest_neighbor_path, nnLoop]
  · simp [he]

theorem tradCore_length (contains : Polygon → Point → Bool)
    (sampler : List Point → ℕ → List Point) (poly : Polygon) (s : ℚ)
    (maxP : ℕ)
    (hsampler : ∀ (l : List Point) (k : ℕ), k ≤ l.length → (sampler l k).length = k)
    (hmax : 1 ≤ maxP) :
    (tradCore contains sampler poly s maxP).length =
      (let pts := tGridSample contains poly
          (s * (6 / 5) ^ adaptSteps contains poly maxP s 9)
       if pts.isEmpty then 1 else
       if maxP < pts.length then maxP else pts.length) := by
  rw [tradCore_eq contains sampler poly s maxP hmax]
  set pts := tGridSample contains poly
      (s * (6 / 5) ^ adaptSteps contains poly maxP s 9) with hpts
  by_cases he : pts.isEmpty
  · simp [he]
  · by_cases hlt : maxP < pts.length
    · simp [he, hlt, nnPath_length, hsampler pts maxP hlt.le]
    · simp [he, hlt, nnPath_length]

theorem tradCore_len_pos (contains : Polygon → Point → Bool)
    (sampler : List Point → ℕ → List Point) (poly : Polygon) (s : ℚ)
    (maxP : ℕ)
    (hsampler : ∀ (l : List Point) (k : ℕ), k ≤ l.length → (sampler l k).length = k)
    (hmax : 1 ≤ maxP) :
    1 ≤ (tradCore contains sampler poly s maxP).length := by
  rw [tradCore_length contains sampler poly s maxP hsampler hmax]
  set pts := tGridSample contains poly
      (s * (6 / 5) ^ adaptSteps contains poly maxP s 9) with hpts
  by_cases he : pts.isEmpty
  · simp [he]
  · have hlen : 1 ≤ pts.length := by
      have : pts ≠ [] := by simpa [List.isEmpty_iff] using he
      have := List.length_pos.mpr this
      omega
    by_cases hlt : maxP < pts.length <;> simp [he, hlt] <;> omega

theorem grid_scan_len_pos (contains : Polygon → Point → Bool)
    (buffer : Polygon → ℚ → List Polygon) (boundary : List Point)
    (s bd : ℚ) (dir : Dir) :
    1 ≤ (generate_grid_scan_path contains buffer boundary s bd dir).length := by
  cases hr : scanRegion buffer boundary bd with
  | none => simp [generate_grid_scan_path, hr]
  | some poly =>
    have h1 : generate_grid_scan_path contains buffer boundary s bd dir =
        (if (gridDispatch contains poly s dir).isEmpty then [shCentroid poly]
         else gridDispatch contains poly s dir) := by
      simp [generate_grid_scan_path, hr]
    rw [h1]
    by_cases hp : (gridDispatch contains poly s dir).isEmpty
    · simp [hp]
    · rw [if_neg (by simpa using hp)]
      have h2 : gridDispatch contains poly s dir ≠ [] := by
        simpa [List.isEmpty_iff] using hp
      simpa [Nat.succ_le_iff] using List.length_pos.mpr h2

theorem grid_points_mem {contains : Polygon → Point → Bool} {poly : Polygon}
    {minx maxx miny maxy s : ℚ} {p : Point}
    (h : p ∈ generate_grid_points contains poly minx maxx miny maxy s) :
    contains poly p = true :=
  gridCandidates_mem (nnPath_mem (by simpa [generate_grid_points] using h))

/-! ### Claim theorems -/

/-- C4: for every finite input list of 2-D points, the greedy
nearest-neighbour ordering (used by the grid direction and by traditional
mode) returns a permutation of its input — the same multiset of points, with
no point added, dropped, or duplicated. -/
theorem spec2proof_C4 (pts : List Point) :
    (nearest_neighbor_path pts).Perm pts :=
  nnPath_perm pts

/-- C5: for `boundaryClearance = 0` the offset engine performs no offsetting:
the active region is the input polygon itself (its vertex ring, with the
representational closing point dropped, exactly as the source hands it to
the geometry library), and both planners' outputs are independent of the
offset capability. -/
theorem spec2proof_C5 (contains : Polygon → Point → Bool)
    (buffer buffer' : Polygon → ℚ → List Polygon)
    (sampler : List Point → ℕ → List Point) (boundary : List Point)
    (s : ℚ) (maxP : ℕ) (dir : Dir) :
    scanRegion buffer boundary 0 = some boundary.dropLast ∧
    generate_grid_scan_path contains buffer boundary s 0 dir =
      generate_grid_scan_path contains buffer' boundary s 0 dir ∧
    generate_traditional_scan_path contains buffer sampler boundary s maxP 0 =
      generate_traditional_scan_path contains buffer' sampler boundary s maxP 0 := by
  refine ⟨?_, ?_, ?_⟩ <;>
    simp [scanRegion, generate_grid_scan_path, generate_traditional_scan_path]

/-- C6: when the inward offset of the boundary by a positive clearance is
empty or invalid (modelled by the offset capability returning no pieces),
both planners fall back to a single scan position at the original polygon's
centroid. -/
theorem spec2proof_C6 (contains : Polygon → Point → Bool)
    (buffer : Polygon → ℚ → List Polygon)
    (sampler : List Point → ℕ → List Point) (boundary : List Point)
    (s : ℚ) (maxP : ℕ) (bd : ℚ) (dir : Dir)
    (hbd : 0 < bd) (hbuf : buffer boundary.dropLast bd = []) :
    generate_grid_scan_path contains buffer boundary s bd dir =
      [shCentroid boundary.dropLast] ∧
    generate_traditional_scan_path contains buffer sampler boundary s maxP bd =
      [shCentroid boundary.dropLast] := by
  have hreg : scanRegion buffer boundary bd = none := by
    simp [scanRegion, hbd, hbuf]
  constructor <;>
    simp [generate_grid_scan_path, generate_traditional_scan_path, hreg]

/-- C6 witness: the spec's concrete scenario — the 10 × 10 square with
clearance 6 (exceeding the inscribed radius) yields exactly the one-element
sequence at the centroid `(5, 5)`, in both modes. -/
theorem spec2proof_C6_witness :
    generate_grid_scan_path convexContains rectInnerOffset sqBoundary 2 6
      Dir.horizontal = [(5, 5)] ∧
    generate_traditional_scan_path convexContains rectInnerOffset takeSampler
      sqBoundary 2 15 6 = [(5, 5)] := by
  have h := spec2proof_C6 convexContains rectInnerOffset takeSampler sqBoundary
    2 15 6 Dir.horizontal (by norm_num) (by decide)
  rw [show shCentroid (sqBoundary.dropLast) = ((5 : ℚ), (5 : ℚ)) from by decide] at h
  exact h

/-- C7: when the inward offset produces one or more polygon pieces, the
planner's active region is the first piece of maximal area — it is one of the
pieces, and every piece's area is bounded by its area. -/
theorem spec2proof_C7 (buffer : Polygon → ℚ → List Polygon)
    (boundary : List Point) (bd : ℚ) (p : Polygon) (ps : List Polygon)
    (hbd : 0 < bd) (hbuf : buffer boundary.dropLast bd = p :: ps) :
    scanRegion buffer boundary bd = some (pickLargest p ps) ∧
    pickLargest p ps ∈ p :: ps ∧
    ((p :: ps).all fun q => decide (shArea q ≤ shArea (pickLargest p ps))) = true := by
  refine ⟨by simp [scanRegion, hbd, hbuf], pickLargest_mem ps p, ?_⟩
  rw [List.all_eq_true]
  intro q hq
  exact decide_eq_true (pickLargest_le ps p q hq)

/-- C7 witness: an offset returning two pieces (a unit square and a 4 × 4
square) makes the planner select the larger piece and discard the other. -/
theorem spec2proof_C7_witness :
    scanRegion (fun _ _ => [[(0, 0), (1, 0), (1, 1), (0, 1)],
        [(2, 0), (6, 0), (6, 4), (2, 4)]]) sqBoundary 1 =
      some (pickLargest [(0, 0), (1, 0), (1, 1), (0, 1)]
        [[(2, 0), (6, 0), (6, 4), (2, 4)]]) ∧
    pickLargest [(0, 0), (1, 0), (1, 1), (0, 1)]
        [[(2, 0), (6, 0), (6, 4), (2, 4)]] ∈
      ([(0, 0), (1, 0), (1, 1), (0, 1)] :: [[(2, 0), (6, 0), (6, 4), (2, 4)]]) ∧
    (([(0, 0), (1, 0), (1, 1), (0, 1)] :: [[(2, 0), (6, 0), (6, 4), (2, 4)]]).all
      fun q => decide (shArea q ≤ shArea (pickLargest [(0, 0), (1, 0), (1, 1), (0, 1)]
        [[(2, 0), (6, 0), (6, 4), (2, 4)]]))) = true :=
  spec2proof_C7 (fun _ _ => [[(0, 0), (1, 0), (1, 1), (0, 1)],
    [(2, 0), (6, 0), (6, 4), (2, 4)]]) sqBoundary 1
    [(0, 0), (1, 0), (1, 1), (0, 1)] [[(2, 0), (6, 0), (6, 4), (2, 4)]]
    (by norm_num) rfl

/-- C10: every point emitted by the three non-fallback grid-mode strategies
(horizontal sweep, vertical sweep, grid-point sampling) passes the
point-in-polygon containment test of the active region — each candidate is
re-checked before being appended, so no emitted point lies outside. -/
theorem spec2proof_C10 :
    (∀ (contains : Polygon → Point → Bool) (poly : Polygon)
        (minx maxx miny maxy s : ℚ) (p : Point),
        p ∈ generate_horizontal_scan contains poly minx maxx miny maxy s →
        contains poly p = true) ∧
    (∀ (contains : Polygon → Point → Bool) (poly : Polygon)
        (minx maxx miny maxy s : ℚ) (p : Point),
        p ∈ generate_vertical_scan contains poly minx maxx miny maxy s →
        contains poly p = true) ∧
    (∀ (contains : Polygon → Point → Bool) (poly : Polygon)
        (minx maxx miny maxy s : ℚ) (p : Point),
        p ∈ generate_grid_points contains poly minx maxx miny maxy s →
        contains poly p = true) := by
  refine ⟨?_, ?_, ?_⟩
  · intro contains poly minx maxx miny maxy s p h
    exact (horizontal_scan_mem h).2
  · intro contains poly minx maxx miny maxy s p h
    exact (vertical_scan_mem h).2
  · intro contains poly minx maxx miny maxy s p h
    exact grid_points_mem h

/-- C10 witness: sample emitted points of each strategy on the offset square
of the spec's scenario are indeed strictly inside it. -/
theorem spec2proof_C10_witness :
    convexContains sqInner (11 / 10, 2) = true ∧
    convexContains sqInner (2, 11 / 10) = true ∧
    convexContains sqInner (2, 2) = true :=
  ⟨spec2proof_C10.1 convexContains sqInner 1 9 1 9 2 (11 / 10, 2) (by decide),
   spec2proof_C10.2.1 convexContains sqInner 1 9 1 9 2 (2, 11 / 10) (by decide),
   spec2proof_C10.2.2 convexContains sqInner 1 9 1 9 2 (2, 2) (by decide)⟩

/-- C2: in grid mode with horizontal direction, every emitted point lies on a
scan line `y = min_y + step/2 + k·step` strictly below `max_y` (the fractional
part of `(y - (min_y + step/2))/step` vanishes); and on the spec's square
scenario (step 2, clearance 1) the planner emits exactly the serpentine
16-point path with lines at y = 2, 4, 6, 8, the odd-indexed lines (y = 4 and
y = 8) traversed right-to-left. -/
theorem spec2proof_C2 :
    (∀ (contains : Polygon → Point → Bool) (poly : Polygon)
        (minx maxx miny maxy s : ℚ) (p : Point), 0 < s →
        p ∈ generate_horizontal_scan contains poly minx maxx miny maxy s →
        Int.fract ((p.2 - (miny + s / 2)) / s) = 0 ∧
          miny + s / 2 ≤ p.2 ∧ p.2 < maxy) ∧
    generate_grid_scan_path convexContains rectInnerOffset sqBoundary 2 1
        Dir.horizontal =
      [(11 / 10, 2), (31 / 10, 2), (51 / 10, 2), (71 / 10, 2),
       (71 / 10, 4), (51 / 10, 4), (31 / 10, 4), (11 / 10, 4),
       (11 / 10, 6), (31 / 10, 6), (51 / 10, 6), (71 / 10, 6),
       (71 / 10, 8), (51 / 10, 8), (31 / 10, 8), (11 / 10, 8)] := by
  constructor
  · intro contains poly minx maxx miny maxy s p hs hp
    exact arange_mem_bound hs (horizontal_scan_mem hp).1
  · decide

/-- C2 witness: the line-structure part applied to the emitted point
`(1.1, 2)` of the scenario's horizontal sweep over the offset square. -/
theorem spec2proof_C2_witness :
    Int.fract ((2 - ((1 : ℚ) + 2 / 2)) / 2) = 0 ∧
      (1 : ℚ) + 2 / 2 ≤ 2 ∧ (2 : ℚ) < 9 :=
  spec2proof_C2.1 convexContains sqInner 1 9 1 9 2 (11 / 10, 2)
    (by norm_num) (by decide)

/-- C1 counterexample: with `maxPoints = 0` (the claim admits any
`maxPoints`) in traditional mode on the square with clearance 0 and step 1.9,
in-region candidates exist at every one of the 10 attempts, the final set is
subsampled down to exactly `maxPoints = 0` points, and the planner returns
the empty sequence — contradicting the claimed length ≥ 1. -/
theorem spec2proof_C1_cex :
    optimize_scan_path convexContains rectInnerOffset takeSampler sqBoundary
      ⟨19 / 10, 0, Mode.traditional, Dir.horizontal, 0⟩ = [] ∧
    ¬ 1 ≤ (optimize_scan_path convexContains rectInnerOffset takeSampler
      sqBoundary ⟨19 / 10, 0, Mode.traditional, Dir.horizontal, 0⟩).length := by
  constructor <;> decide

/-- C1 (amended): for every boundary polygon and every configuration, the
planner returns a sequence of length ≥ 1, provided `maxPoints ≥ 1` (the
traditional-mode subsampler, which returns exactly the requested number of
points, would otherwise empty the result); grid mode needs no such proviso. -/
theorem spec2proof_C1 (contains : Polygon → Point → Bool)
    (buffer : Polygon → ℚ → List Polygon)
    (sampler : List Point → ℕ → List Point) (boundary : List Point)
    (cfg : ScanConfig)
    (hsampler : ∀ (l : List Point) (k : ℕ), k ≤ l.length → (sampler l k).length = k)
    (hmax : 1 ≤ cfg.maxPoints) :
    1 ≤ (optimize_scan_path contains buffer sampler boundary cfg).length := by
  cases hm : cfg.mode
  · simpa [optimize_scan_path, hm] using
      grid_scan_len_pos contains buffer boundary cfg.step cfg.boundaryClearance
        cfg.direction
  · simp only [optimize_scan_path, hm]
    cases hr : scanRegion buffer boundary cfg.boundaryClearance with
    | none => simp [generate_traditional_scan_path, hr]
    | some poly =>
      have h1 : generate_traditional_scan_path contains buffer sampler boundary
          cfg.step cfg.maxPoints cfg.boundaryClearance =
          tradCore contains sampler poly cfg.step cfg.maxPoints := by
        simp [generate_traditional_scan_path, hr]
      rw [h1]
      exact tradCore_len_pos contains sampler poly cfg.step cfg.maxPoints
        hsampler hmax

/-- C1 witness: a traditional-mode configuration with `maxPoints = 8` on the
square scenario. -/
theorem spec2proof_C1_witness :
    1 ≤ (optimize_scan_path convexContains rectInnerOffset takeSampler
      sqBoundary ⟨3, 0, Mode.traditional, Dir.grid, 8⟩).length :=
  spec2proof_C1 convexContains rectInnerOffset takeSampler sqBoundary
    ⟨3, 0, Mode.traditional, Dir.grid, 8⟩
    (fun l k h => by simp [takeSampler, List.length_take, Nat.min_eq_left h])
    (by decide)

/-- C3 counterexample: traditional mode, step 20 on the square with clearance
0 and `maxPoints = 0`: no in-region point is ever found at any of the 10
candidate steps (bounded check over all ten `20·1.2^j`), yet the planner
returns the empty sequence, not the active region's centroid — the centroid
fallback list is itself subsampled down to `maxPoints = 0` points. -/
theorem spec2proof_C3_cex :
    ((List.range 10).all fun j =>
      (tGridSample convexContains sqOpen (20 * (6 / 5) ^ j)).isEmpty) = true ∧
    generate_traditional_scan_path convexContains rectInnerOffset takeSampler
      sqBoundary 20 0 0 = [] := by
  constructor <;> decide

/-- C3 (amended): provided `maxPoints ≥ 1` (with `maxPoints = 0` even the
centroid fallback is subsampled away), traditional mode behaves as claimed:
the step is multiplied by exactly 1.2 after each of at most 10 attempts whose
in-region count exceeds `maxPoints` (`adaptSteps` ≤ 9 retries, every skipped
attempt exceeding), the result is the greedy nearest-neighbour ordering of
the final sampling — subsampled to exactly `maxPoints` points when still too
many — and an empty final sampling yields the single centroid point. -/
theorem spec2proof_C3 (contains : Polygon → Point → Bool)
    (buffer : Polygon → ℚ → List Polygon)
    (sampler : List Point → ℕ → List Point) (boundary : List Point)
    (s : ℚ) (maxP : ℕ) (bd : ℚ) (poly : Polygon)
    (hsampler : ∀ (l : List Point) (k : ℕ), k ≤ l.length → (sampler l k).length = k)
    (hmax : 1 ≤ maxP)
    (hregion : scanRegion buffer boundary bd = some poly) :
    adaptSteps contains poly maxP s 9 ≤ 9 ∧
    ((List.range (adaptSteps contains poly maxP s 9)).all fun j =>
        decide (maxP < (tGridSample contains poly (s * (6 / 5) ^ j)).length)) = true ∧
    generate_traditional_scan_path contains buffer sampler boundary s maxP bd =
      (let pts := tGridSample contains poly
          (s * (6 / 5) ^ adaptSteps contains poly maxP s 9)
       if pts.isEmpty then [shCentroid poly]
       else nearest_neighbor_path
         (if maxP < pts.length then sampler pts maxP else pts)) ∧
    (generate_traditional_scan_path contains buffer sampler boundary s maxP bd).length =
      (let pts := tGridSample contains poly
          (s * (6 / 5) ^ adaptSteps contains poly maxP s 9)
       if pts.isEmpty then 1 else
       if maxP < pts.length then maxP else pts.length) := by
  have htc : generate_traditional_scan_path contains buffer sampler boundary
      s maxP bd = tradCore contains sampler poly s maxP := by
    simp [generate_traditional_scan_path, hregion]
  refine ⟨adaptSteps_le contains poly maxP 9 s, ?_, ?_, ?_⟩
  · rw [List.all_eq_true]
    intro j hj
    exact decide_eq_true
      (adaptSteps_exceeds contains poly maxP 9 s j (List.mem_range.mp hj))
  · rw [htc]
    exact tradCore_eq contains sampler poly s maxP hmax
  · rw [htc]
    exact tradCore_length contains sampler poly s maxP hsampler hmax

/-- C3 witness: the traditional scenario on the square (step 3,
`maxPoints = 8`, clearance 0): one step increase is performed, then the four
in-region samples are ordered by nearest neighbour. -/
theorem spec2proof_C3_witness :
    adaptSteps convexContains sqOpen 8 3 9 ≤ 9 ∧
    ((List.range (adaptSteps convexContains sqOpen 8 3 9)).all fun j =>
        decide (8 < (tGridSample convexContains sqOpen (3 * (6 / 5) ^ j)).length)) = true ∧
    generate_traditional_scan_path convexContains rectInnerOffset takeSampler
        sqBoundary 3 8 0 =
      (let pts := tGridSample convexContains sqOpen
          (3 * (6 / 5) ^ adaptSteps convexContains sqOpen 8 3 9)
       if pts.isEmpty then [shCentroid sqOpen]
       else nearest_neighbor_path
         (if 8 < pts.length then takeSampler pts 8 else pts)) ∧
    (generate_traditional_scan_path convexContains rectInnerOffset takeSampler
        sqBoundary 3 8 0).length =
      (let pts := tGridSample convexContains sqOpen
          (3 * (6 / 5) ^ adaptSteps convexContains sqOpen 8 3 9)
       if pts.isEmpty then 1 else
       if 8 < pts.length then 8 else pts.length) :=
  spec2proof_C3 convexContains rectInnerOffset takeSampler sqBoundary 3 8 0
    sqOpen
    (fun l k h => by simp [takeSampler, List.length_take, Nat.min_eq_left h])
    (by decide) (by decide)

theorem extract_bbox_of_none (hull : List Point → Option (List Point))
    (v : List Point3) (faces : List (List ℕ)) (thr : ℚ) (c : Point)
    (rest : List Point)
    (hnone : (if 3 ≤ ((groundVertices v faces thr).map
          (fun w => (w.1, w.2.1))).length
        then hull ((groundVertices v faces thr).map (fun w => (w.1, w.2.1)))
        else none) = none)
    (hxy : (groundVertices v faces thr).map (fun w => (w.1, w.2.1)) = c :: rest) :
    extract_floor_plan hull v faces thr =
      [(minX (c :: rest), minY (c :: rest)), (maxX (c :: rest), minY (c :: rest)),
       (maxX (c :: rest), maxY (c :: rest)), (minX (c :: rest), maxY (c :: rest)),
       (minX (c :: rest), minY (c :: rest))] := by
  simp only [extract_floor_plan]
  rw [hnone, hxy]
  simp [minX, minY, maxX, maxY]

/-- C8 counterexample: the one-vertex mesh `[(0, 0, 0)]` (no faces) has only
one projected ground point, so the hull capability is not consulted and the
bounding-rectangle fallback degenerates — the returned closed polygon has a
single distinct point, not the claimed three. -/
theorem spec2proof_C8_cex :
    extract_floor_plan (fun _ => none) [((0 : ℚ), (0 : ℚ), (0 : ℚ))] [] (1 / 10) =
      [(0, 0), (0, 0), (0, 0), (0, 0), (0, 0)] ∧
    (extract_floor_plan (fun _ => none) [((0 : ℚ), (0 : ℚ), (0 : ℚ))] []
      (1 / 10)).dedup = [(0, 0)] := by
  constructor <;> decide

/-- C8 (amended): for every mesh with at least one vertex the extractor is
total and returns a closed polygon (nonempty, first point equal to last);
when no face's mean height is within the threshold of the ground height the
entire vertex set is used; a successful hull of the (at least 3) projected
ground points is returned closed by repeating its first vertex; and the
bounding-rectangle fallback contains at least 3 pairwise distinct points
whenever the projected points span a nondegenerate rectangle — but not for
degenerate meshes such as a single vertex. -/
theorem spec2proof_C8 :
    (∀ (hull : List Point → Option (List Point)) (v : List Point3)
        (faces : List (List ℕ)) (thr : ℚ), v ≠ [] →
        1 ≤ (extract_floor_plan hull v faces thr).length ∧
        (extract_floor_plan hull v faces thr).head? =
          (extract_floor_plan hull v faces thr).getLast?) ∧
    (∀ (v : List Point3) (faces : List (List ℕ)) (thr : ℚ),
        (faces.filter (fun f => decide (|faceMeanZ v f -
            percentile5 (v.map (fun w => w.2.2))| < thr))) = [] →
        groundVertices v faces thr = v) ∧
    (∀ (hull : List Point → Option (List Point)) (v : List Point3)
        (faces : List (List ℕ)) (thr : ℚ) (h : Point) (t : List Point),
        3 ≤ ((groundVertices v faces thr).map (fun w => (w.1, w.2.1))).length →
        hull ((groundVertices v faces thr).map (fun w => (w.1, w.2.1))) =
          some (h :: t) →
        extract_floor_plan hull v faces thr = (h :: t) ++ [h]) ∧
    (∀ (hull : List Point → Option (List Point)) (v : List Point3)
        (faces : List (List ℕ)) (thr : ℚ) (c : Point) (rest : List Point),
        (if 3 ≤ ((groundVertices v faces thr).map
              (fun w => (w.1, w.2.1))).length
          then hull ((groundVertices v faces thr).map (fun w => (w.1, w.2.1)))
          else none) = none →
        (groundVertices v faces thr).map (fun w => (w.1, w.2.1)) = c :: rest →
        minX (c :: rest) < maxX (c :: rest) →
        minY (c :: rest) < maxY (c :: rest) →
        (minX (c :: rest), minY (c :: rest)) ∈ extract_floor_plan hull v faces thr ∧
        (maxX (c :: rest), minY (c :: rest)) ∈ extract_floor_plan hull v faces thr ∧
        (maxX (c :: rest), maxY (c :: rest)) ∈ extract_floor_plan hull v faces thr ∧
        (minX (c :: rest), minY (c :: rest)) ≠ (maxX (c :: rest), minY (c :: rest)) ∧
        (maxX (c :: rest), minY (c :: rest)) ≠ (maxX (c :: rest), maxY (c :: rest)) ∧
        (minX (c :: rest), minY (c :: rest)) ≠ (maxX (c :: rest), maxY (c :: rest))) := by
  refine ⟨?_, ?_, ?_, ?_⟩
  · -- totality and ring closure
    intro hull v faces thr hv
    have hg : groundVertices v faces thr ≠ [] := by
      simp only [groundVertices]
      split
      · exact hv
      · rename_i hcomp
        intro hc
        rw [hc] at hcomp
        exact hcomp rfl
    have hxyne : (groundVertices v faces thr).map (fun w => (w.1, w.2.1)) ≠ [] := by
      simpa using hg
    rcases hm : (if 3 ≤ ((groundVertices v faces thr).map
        (fun w => (w.1, w.2.1))).length
      then hull ((groundVertices v faces thr).map (fun w => (w.1, w.2.1)))
      else none) with _ | l
    · rcases hxylist : (groundVertices v faces thr).map (fun w => (w.1, w.2.1)) with
        _ | ⟨c, rest⟩
      · exact absurd hxylist hxyne
      · rw [extract_bbox_of_none hull v faces thr c rest hm hxylist]
        exact ⟨by simp, rfl⟩
    · match l with
      | [] =>
        rcases hxylist : (groundVertices v faces thr).map (fun w => (w.1, w.2.1)) with
          _ | ⟨c, rest⟩
        · exact absurd hxylist hxyne
        · have hfp : extract_floor_plan hull v faces thr =
              [(minX (c :: rest), minY (c :: rest)),
               (maxX (c :: rest), minY (c :: rest)),
               (maxX (c :: rest), maxY (c :: rest)),
               (minX (c :: rest), maxY (c :: rest)),
               (minX (c :: rest), minY (c :: rest))] := by
            simp only [extract_floor_plan]
            rw [hm, hxylist]
            simp [minX, minY, maxX, maxY]
          rw [hfp]
          exact ⟨by simp, rfl⟩
      | h :: t =>
        have hfp : extract_floor_plan hull v faces thr = (h :: t) ++ [h] := by
          simp only [extract_floor_plan]
          rw [hm]
        rw [hfp]
        refine ⟨by simp, ?_⟩
        rw [List.getLast?_concat]
        rfl
  · -- no qualifying face: fall back to the entire vertex set
    intro v faces thr hfilter
    simp only [groundVertices]
    rw [hfilter]
    simp
  · -- successful hull: ordered hull vertices closed by the first
    intro hull v faces thr h t h3 hh
    simp only [extract_floor_plan]
    rw [if_pos h3, hh]
  · -- nondegenerate bounding-rectangle fallback: three distinct corners
    intro hull v faces thr c rest hnone hxy hx hy
    rw [extract_bbox_of_none hull v faces thr c rest hnone hxy]
    refine ⟨by simp, by simp, by simp, ?_, ?_, ?_⟩
    · exact fun hc => absurd (congrArg Prod.fst hc) (ne_of_lt hx)
    · exact fun hc => absurd (congrArg Prod.snd hc) (ne_of_lt hy)
    · exact fun hc => absurd (congrArg Prod.fst hc) (ne_of_lt hx)

/-- C8 witness: the four parts at concrete meshes — a two-vertex mesh for
closure, a no-qualifying-face mesh for the whole-vertex-set fallback, a
triangle mesh with a successful hull, and a diagonal two-vertex mesh whose
bounding rectangle is nondegenerate. -/
theorem spec2proof_C8_witness :
    (1 ≤ (extract_floor_plan (fun _ => none)
        [((0 : ℚ), (0 : ℚ), (0 : ℚ)), (1, 2, 3)] [] (1 / 10)).length ∧
      (extract_floor_plan (fun _ => none)
        [((0 : ℚ), (0 : ℚ), (0 : ℚ)), (1, 2, 3)] [] (1 / 10)).head? =
      (extract_floor_plan (fun _ => none)
        [((0 : ℚ), (0 : ℚ), (0 : ℚ)), (1, 2, 3)] [] (1 / 10)).getLast?) ∧
    groundVertices [((0 : ℚ), (0 : ℚ), (1 : ℚ))] [[0]] 0 =
      [((0 : ℚ), (0 : ℚ), (1 : ℚ))] ∧
    extract_floor_plan (fun _ => some [(0, 0), (1, 0), (0, 1)])
        [((0 : ℚ), (0 : ℚ), (0 : ℚ)), (1, 0, 0), (0, 1, 0)] [] (1 / 10) =
      (((0 : ℚ), (0 : ℚ)) :: [((1 : ℚ), (0 : ℚ)), ((0 : ℚ), (1 : ℚ))]) ++
        [((0 : ℚ), (0 : ℚ))] ∧
    ((minX [((0 : ℚ), (0 : ℚ)), (1, 1)], minY [((0 : ℚ), (0 : ℚ)), (1, 1)]) ∈
        extract_floor_plan (fun _ => none)
          [((0 : ℚ), (0 : ℚ), (0 : ℚ)), (1, 1, 0)] [] (1 / 10) ∧
      (maxX [((0 : ℚ), (0 : ℚ)), (1, 1)], minY [((0 : ℚ), (0 : ℚ)), (1, 1)]) ∈
        extract_floor_plan (fun _ => none)
          [((0 : ℚ), (0 : ℚ), (0 : ℚ)), (1, 1, 0)] [] (1 / 10) ∧
      (maxX [((0 : ℚ), (0 : ℚ)), (1, 1)], maxY [((0 : ℚ), (0 : ℚ)), (1, 1)]) ∈
        extract_floor_plan (fun _ => none)
          [((0 : ℚ), (0 : ℚ), (0 : ℚ)), (1, 1, 0)] [] (1 / 10) ∧
      (minX [((0 : ℚ), (0 : ℚ)), (1, 1)], minY [((0 : ℚ), (0 : ℚ)), (1, 1)]) ≠
        (maxX [((0 : ℚ), (0 : ℚ)), (1, 1)], minY [((0 : ℚ), (0 : ℚ)), (1, 1)]) ∧
      (maxX [((0 : ℚ), (0 : ℚ)), (1, 1)], minY [((0 : ℚ), (0 : ℚ)), (1, 1)]) ≠
        (maxX [((0 : ℚ), (0 : ℚ)), (1, 1)], maxY [((0 : ℚ), (0 : ℚ)), (1, 1)]) ∧
      (minX [((0 : ℚ), (0 : ℚ)), (1, 1)], minY [((0 : ℚ), (0 : ℚ)), (1, 1)]) ≠
        (maxX [((0 : ℚ), (0 : ℚ)), (1, 1)], maxY [((0 : ℚ), (0 : ℚ)), (1, 1)])) :=
  ⟨spec2proof_C8.1 (fun _ => none) [((0 : ℚ), (0 : ℚ), (0 : ℚ)), (1, 2, 3)] []
      (1 / 10) (by decide),
   spec2proof_C8.2.1 [((0 : ℚ), (0 : ℚ), (1 : ℚ))] [[0]] 0 (by decide),
   spec2proof_C8.2.2.1 (fun _ => some [(0, 0), (1, 0), (0, 1)])
      [((0 : ℚ), (0 : ℚ), (0 : ℚ)), (1, 0, 0), (0, 1, 0)] [] (1 / 10)
      ((0 : ℚ), (0 : ℚ)) [((1 : ℚ), (0 : ℚ)), ((0 : ℚ), (1 : ℚ))]
      (by decide) (by decide),
   spec2proof_C8.2.2.2 (fun _ => none) [((0 : ℚ), (0 : ℚ), (0 : ℚ)), (1, 1, 0)]
      [] (1 / 10) ((0 : ℚ), (0 : ℚ)) [((1 : ℚ), (1 : ℚ))]
      (by decide) (by decide) (by decide) (by decide)⟩

/-- C9 counterexample: on the collinear input `[(0,0), (-2,0), (1,0), (3,0)]`
the original generation order has total length 7 while the greedy
nearest-neighbour ordering `[(0,0), (1,0), (3,0), (-2,0)]` has total length 8
— the claimed inequality fails. -/
theorem spec2proof_C9_cex :
    pathLen [((0 : ℚ), (0 : ℚ)), (-2, 0), (1, 0), (3, 0)] <
      pathLen (nearest_neighbor_path [((0 : ℚ), (0 : ℚ)), (-2, 0), (1, 0), (3, 0)]) := by
  rw [show nearest_neighbor_path [((0 : ℚ), (0 : ℚ)), (-2, 0), (1, 0), (3, 0)] =
      [((0 : ℚ), (0 : ℚ)), (1, 0), (3, 0), (-2, 0)] from by decide]
  have h4 : Real.sqrt 4 = 2 := by
    rw [show (4 : ℝ) = 2 ^ 2 by norm_num, Real.sqrt_sq (by norm_num : (0 : ℝ) ≤ 2)]
  have h9 : Real.sqrt 9 = 3 := by
    rw [show (9 : ℝ) = 3 ^ 2 by norm_num, Real.sqrt_sq (by norm_num : (0 : ℝ) ≤ 3)]
  have h25 : Real.sqrt 25 = 5 := by
    rw [show (25 : ℝ) = 5 ^ 2 by norm_num, Real.sqrt_sq (by norm_num : (0 : ℝ) ≤ 5)]
  simp only [pathLen, segLen, sqDist]
  push_cast
  norm_num [h4, h9, h25]

/-- C9 (amended): the greedy nearest-neighbour path is no longer than the
original generation order for inputs of 2 or 3 points (the first hop is
greedily minimal and the remaining hop is the same edge); from 4 points on
the universal inequality fails. -/
theorem spec2proof_C9 (pts : List Point) (h2 : 2 ≤ pts.length)
    (h3 : pts.length ≤ 3) :
    pathLen (nearest_neighbor_path pts) ≤ pathLen pts := by
  rcases pts with _ | ⟨a, _ | ⟨b, _ | ⟨c, _ | ⟨d, rest⟩⟩⟩⟩
  · simp at h2
  · simp at h2
  · have hnn : nearest_neighbor_path [a, b] = [a, b] := rfl
    rw [hnn]
  · by_cases hlt : sqDist a c < sqDist a b
    · have hnn : nearest_neighbor_path [a, b, c] = [a, c, b] := by
        simp [nearest_neighbor_path, nnLoop, argminAux, hlt]
      rw [hnn]
      simp only [pathLen]
      have e1 : segLen c b = segLen b c := segLen_comm c b
      have e2 : segLen a c ≤ segLen a b := segLen_le_segLen a c b hlt.le
      linarith
    · have hnn : nearest_neighbor_path [a, b, c] = [a, b, c] := by
        simp [nearest_neighbor_path, nnLoop, argminAux, hlt]
      rw [hnn]
  · exfalso
    simp only [List.length_cons] at h3
    omega

/-- C9 witness: a 3-point input where the greedy reordering strictly helps
yet stays within the original order's length. -/
theorem spec2proof_C9_witness :
    2 ≤ ([((0 : ℚ), (0 : ℚ)), (3, 0), (1, 0)] : List Point).length ∧
    pathLen (nearest_neighbor_path [((0 : ℚ), (0 : ℚ)), (3, 0), (1, 0)]) ≤
      pathLen [((0 : ℚ), (0 : ℚ)), (3, 0), (1, 0)] :=
  ⟨by decide, spec2proof_C9 [((0 : ℚ), (0 : ℚ)), (3, 0), (1, 0)]
    (by decide) (by decide)⟩

end HeliosScan
